import Mathlib

/-!
Verification development for the CRUST1.0 regridding pipeline of
`pytomoatt/io/crust.py`.

The Python source is shallowly embedded: numpy arrays become Lean lists
(or nested lists), floating-point sample values become rationals, and a
fallible numpy operation (indexing an empty index array, a failed
Delaunay triangulation inside scipy) becomes an `Except` value.  The
3-D velocity grid `grid_vp` of shape `(ndep, nlat, nlon)` is stored
column-major: `g[i][j]` is the depth column `grid_vp[:, i, j]`, which is
exactly the unit the hole-filling loop of `CrustModel.griddata`
iterates over.
-/

/-! ## `find_adjacent_point` (crust.py lines 9-20) -/

/-- Embedding of `np.searchsorted(array, point)` (side `left`) for a scalar
query: the insertion index that keeps the array sorted, i.e. the number of
elements strictly below the query.  This is the documented semantics of
`np.searchsorted` on its required sorted input. -/
def searchsorted (array : List ℚ) (point : ℚ) : Nat :=
  array.countP (fun x => decide (x < point))

/-- Embedding of `find_adjacent_point`:
`index = np.searchsorted(array, points)`;
`left  = np.where(index == 0, None, index - 1)`;
`right = np.where(index == len(array), None, index)`. -/
def find_adjacent_point (array : List ℚ) (point : ℚ) : Option Nat × Option Nat :=
  let index := searchsorted array point
  (if index = 0 then none else some (index - 1),
   if index = array.length then none else some index)

/-! ## Source model and `model2points` (crust.py lines 36-48) -/

/-- One cell `mod_data[i][j]` of the CRUST1.0 model: the two parallel
profile sequences `depth` and `vp`. -/
structure CrustCell where
  depth : List ℚ
  vp : List ℚ

/-- The loaded source model: `mod_lat`, `mod_lon` and the 2-D cell array
`mod_data`, here a total function of the two indices (the numpy object
array always holds a record for every `(i, j)` the loops visit). -/
structure SourceModel where
  lat : List ℚ
  lon : List ℚ
  data : Nat → Nat → CrustCell

/-- Embedding of `CrustModel.model2points`: the nested loops
`for i, lat in enumerate(self.mod_lat): for j, lon in enumerate(self.mod_lon):
for k, dep in enumerate(all_dep):` emitting the row
`[dep, lat, lon, all_vp[k]]`.  Out-of-range accesses do not occur on
well-formed models whose profiles are parallel sequences, so list reads
use `getD`. -/
def model2points (sm : SourceModel) : List (ℚ × ℚ × ℚ × ℚ) :=
  (List.range sm.lat.length).flatMap (fun i =>
    (List.range sm.lon.length).flatMap (fun j =>
      (List.range (sm.data i j).depth.length).map (fun k =>
        ((sm.data i j).depth.getD k 0, sm.lat.getD i 0, sm.lon.getD j 0,
         (sm.data i j).vp.getD k 0))))

/-- The same loops instrumented with a count of container allocations:
`self.points = np.empty([0, 4])` allocates once, and every
`np.vstack([self.points, row])` allocates a fresh array and copies the
accumulated rows into it. -/
def model2pointsAlloc (sm : SourceModel) : List (ℚ × ℚ × ℚ × ℚ) × Nat :=
  (List.range sm.lat.length).foldl (fun acc i =>
    (List.range sm.lon.length).foldl (fun acc j =>
      (List.range (sm.data i j).depth.length).foldl (fun acc k =>
        (acc.1 ++ [((sm.data i j).depth.getD k 0, sm.lat.getD i 0,
                    sm.lon.getD j 0, (sm.data i j).vp.getD k 0)],
         acc.2 + 1))
        acc) acc) ([], 1)

/-! ## Errors surfaced by `CrustModel.griddata` -/

/-- The two failures the `griddata` pipeline can raise:
`insufficientData` models the scipy `QhullError` when the point cloud
cannot be triangulated, and `indexErr` models the Python `IndexError`
raised by `np.where(~np.isnan(vp_dep))[0][0]` when the index array is
empty (an all-NaN depth column).  The source never raises a dedicated
empty-column error. -/
inductive CrustErr where
  | insufficientData : CrustErr
  | indexErr : CrustErr
deriving DecidableEq

/-! ## The hole-filling loop (crust.py lines 76-83) -/

/-- The indices of the defined (non-NaN) entries of a depth column:
`np.where(~np.isnan(vp_dep))[0]`. -/
def definedIdx (c : List (Option ℚ)) : List Nat :=
  (List.range c.length).filter (fun k => (c.getD k none).isSome)

/-- The in-place update of one column given the first and last defined
indices: `vp_dep[:first] = vp_dep[first]; vp_dep[last+1:] = vp_dep[last]`,
everything in between left untouched. -/
def fillAt (c : List (Option ℚ)) (first last : Nat) : List (Option ℚ) :=
  (List.range c.length).map (fun k =>
    if k < first then c.getD first none
    else if last < k then c.getD last none
    else c.getD k none)

/-- The per-column body of the hole-filling loop.  When the column has no
defined entry, `np.where(...)[0]` is empty and indexing it with `[0]`
raises `IndexError`; otherwise `first`/`last` are its head and last
elements and the column is overwritten by `fillAt`. -/
def fillColumn (c : List (Option ℚ)) : Except CrustErr (List (Option ℚ)) :=
  match definedIdx c with
  | [] => .error .indexErr
  | f :: rest => .ok (fillAt c f ((f :: rest).getLast (List.cons_ne_nil f rest)))

/-- The inner loop `for j, _ in enumerate(self.pp)` over the columns of one
latitude row of the grid. -/
def fillRow : List (List (Option ℚ)) → Except CrustErr (List (List (Option ℚ)))
  | [] => .ok []
  | c :: rest =>
      match fillColumn c with
      | .error e => .error e
      | .ok c' =>
          match fillRow rest with
          | .error e => .error e
          | .ok rest' => .ok (c' :: rest')

/-- The full hole-filling pass (`for i, _ in enumerate(self.tt)` over the
latitude rows), on the column-major grid `g[i][j] = grid_vp[:, i, j]`. -/
def holeFill : List (List (List (Option ℚ))) → Except CrustErr (List (List (List (Option ℚ))))
  | [] => .ok []
  | row :: rest =>
      match fillRow row with
      | .error e => .error e
      | .ok row' =>
          match holeFill rest with
          | .error e => .error e
          | .ok rest' => .ok (row' :: rest')

/-! ## Output arrays of `griddata` (crust.py lines 86-89) -/

/-- Embedding of `np.zeros(n_rtp)` in the numpy `(ndep, nlat, nlon)` layout. -/
def zeros3 (n1 n2 n3 : Nat) : List (List (List ℚ)) :=
  List.replicate n1 (List.replicate n2 (List.replicate n3 (0 : ℚ)))

/-- A nested list is a rectangular 3-D array of dimensions `(n1, n2, n3)`. -/
def IsCube {α : Type} (g : List (List (List α))) (n1 n2 n3 : Nat) : Prop :=
  g.length = n1 ∧ ∀ p ∈ g, p.length = n2 ∧ ∀ r ∈ p, r.length = n3

/-- The column-major storage `v[i][j] = grid_vp[:, i, j]` of a velocity grid
whose numpy shape is `(n1, n2, n3) = (ndep, nlat, nlon)`: the outer two
levels range over latitude and longitude and every depth column has
length `n1`. -/
def VelHasShape (v : List (List (List (Option ℚ)))) (n1 n2 n3 : Nat) : Prop :=
  v.length = n2 ∧ ∀ p ∈ v, p.length = n3 ∧ ∀ c ∈ p, c.length = n1

/-! ## Degenerate point clouds (scipy triangulation failure) -/

/-- Componentwise difference of two coordinate triples. -/
def sub3 (u v : ℚ × ℚ × ℚ) : ℚ × ℚ × ℚ :=
  (u.1 - v.1, u.2.1 - v.2.1, u.2.2 - v.2.2)

/-- Determinant of three coordinate triples viewed as rows. -/
def det3 (u v w : ℚ × ℚ × ℚ) : ℚ :=
  u.1 * (v.2.1 * w.2.2 - v.2.2 * w.2.1)
    - u.2.1 * (v.1 * w.2.2 - v.2.2 * w.1)
    + u.2.2 * (v.1 * w.2.1 - v.2.1 * w.1)

/-- The point cloud has fewer than 4 non-coplanar points: every quadruple
of its coordinate triples is coplanar (in particular any cloud with
fewer than 4 points, or one lying in a common plane or line).  This is
the condition under which the Delaunay triangulation inside
`scipy.interpolate.griddata` fails with a `QhullError`. -/
def degeneratePts (pts : List (ℚ × ℚ × ℚ)) : Prop :=
  ∀ a ∈ pts, ∀ b ∈ pts, ∀ c ∈ pts, ∀ d ∈ pts,
    det3 (sub3 b a) (sub3 c a) (sub3 d a) = 0

instance (pts : List (ℚ × ℚ × ℚ)) : Decidable (degeneratePts pts) := by
  unfold degeneratePts; exact inferInstance

/-! ## Axes and the `griddata` pipeline (crust.py lines 50-89) -/

/-- Modelled from the spec: `init_axis` (in `pytomoatt.utils`, not part of
the sources at hand) is the external axis generator that turns a
`(min, max, count)` specification into a monotonic sample axis covering
the bounds inclusively; its depth/lat/lon outputs are the linspace-style
axes `self.dd`, `self.tt`, `self.pp`. -/
def linspace (a b : ℚ) (n : Nat) : List ℚ :=
  (List.range n).map (fun i => a + (b - a) * i / ((n : ℚ) - 1))

/-- The model state written by `CrustModel.griddata`: the three axes and
the four output arrays.  `eta`, `xi`, `zeta` are stored in numpy
`(ndep, nlat, nlon)` layout; `vel` is stored column-major (see
`VelHasShape`). -/
structure OutModel where
  dd : List ℚ
  tt : List ℚ
  pp : List ℚ
  eta : List (List (List ℚ))
  xi : List (List (List ℚ))
  zeta : List (List (List ℚ))
  vel : List (List (List (Option ℚ)))
deriving DecidableEq

/-- Embedding of `CrustModel.griddata`.  The scattered interpolation
itself (`scipy.interpolate.griddata` over the Delaunay triangulation of
the cloud) is not a rational-arithmetic computation; its output array is
passed in as `grid_vp`, while its one failure mode — the `QhullError`
raised while triangulating a degenerate cloud, before any grid exists —
is modelled by the `degeneratePts` test on `self.points[:, 0:3]`.  On
success the hole-filling loop runs and the four output arrays are
stored, `eta`/`xi`/`zeta` as `np.zeros(n_rtp)`. -/
def CrustModel.griddata (grid_vp : List (List (List (Option ℚ))))
    (points : List (ℚ × ℚ × ℚ × ℚ)) (min_max_dep min_max_lat min_max_lon : ℚ × ℚ)
    (n_rtp : Nat × Nat × Nat) : Except CrustErr OutModel :=
  if degeneratePts (points.map (fun q => (q.1, q.2.1, q.2.2.1))) then
    .error .insufficientData
  else
    match holeFill grid_vp with
    | .error e => .error e
    | .ok vel =>
        .ok ⟨linspace min_max_dep.1 min_max_dep.2 n_rtp.1,
             linspace min_max_lat.1 min_max_lat.2 n_rtp.2.1,
             linspace min_max_lon.1 min_max_lon.2 n_rtp.2.2,
             zeros3 n_rtp.1 n_rtp.2.1 n_rtp.2.2,
             zeros3 n_rtp.1 n_rtp.2.1 n_rtp.2.2,
             zeros3 n_rtp.1 n_rtp.2.1 n_rtp.2.2,
             vel⟩

/-! ## Smoothing (crust.py lines 91-92) -/

/-- Index reflection at the array edges, the boundary policy of
`scipy.ndimage.gaussian_filter` (mode `reflect`): the sample pattern
`(d c b a | a b c d | d c b a)` extended periodically. -/
def reflIdx (n : Nat) (t : Int) : Nat :=
  if n = 0 then 0
  else
    let m := t.emod (2 * n)
    if m < (n : Int) then m.toNat else (2 * n - 1 - m).toNat

/-- One-dimensional correlation of a row with a centred kernel `w` of
radius `r`, with reflected boundary handling. -/
def corr1 (w : List ℚ) (r : Nat) (xs : List ℚ) : List ℚ :=
  (List.range xs.length).map (fun (i : Nat) =>
    ((List.range w.length).map (fun (m : Nat) =>
      w.getD m 0 * xs.getD (reflIdx xs.length ((i : Int) + m - r)) 0)).sum)

/-- The separable filter along the innermost axis of a 3-D array. -/
def corrAxis2 (w : List ℚ) (r : Nat) (g : List (List (List ℚ))) : List (List (List ℚ)) :=
  g.map (fun p => p.map (corr1 w r))

/-- The separable filter along the middle axis of a 3-D array. -/
def corrAxis1 (w : List ℚ) (r : Nat) (g : List (List (List ℚ))) : List (List (List ℚ)) :=
  g.map (fun p =>
    (List.range p.length).map (fun (j : Nat) =>
      (List.range ((p.getD j []).length)).map (fun (k : Nat) =>
        ((List.range w.length).map (fun (m : Nat) =>
          w.getD m 0 * (p.getD (reflIdx p.length ((j : Int) + m - r)) []).getD k 0)).sum)))

/-- The separable filter along the outermost axis of a 3-D array. -/
def corrAxis0 (w : List ℚ) (r : Nat) (g : List (List (List ℚ))) : List (List (List ℚ)) :=
  (List.range g.length).map (fun (i : Nat) =>
    (List.range ((g.getD i []).length)).map (fun (j : Nat) =>
      (List.range (((g.getD i []).getD j []).length)).map (fun (k : Nat) =>
        ((List.range w.length).map (fun (m : Nat) =>
          w.getD m 0 * ((g.getD (reflIdx g.length ((i : Int) + m - r)) []).getD j []).getD k 0)).sum)))

/-- Embedding of `scipy.ndimage.gaussian_filter(vel, sigma)`: the separable
correlation applied along each of the three axes in turn.  The Gaussian
weights derived from `sigma` involve `exp` and are irrational, so the
1-D kernel `w` (with its radius `r`) is kept abstract; every theorem
below holds for all kernels, in particular the Gaussian one. -/
def gaussian_filter (w : List ℚ) (r : Nat) (g : List (List (List ℚ))) : List (List (List ℚ)) :=
  corrAxis0 w r (corrAxis1 w r (corrAxis2 w r g))

/-- The `CrustModel` object state at the time `smooth` is invoked: the
three axes, the three placeholder arrays and the (fully defined, hence
rational-valued) velocity grid. -/
structure CrustState where
  dd : List ℚ
  tt : List ℚ
  pp : List ℚ
  eta : List (List (List ℚ))
  xi : List (List (List ℚ))
  zeta : List (List (List ℚ))
  vel : List (List (List ℚ))

/-- Embedding of `CrustModel.smooth`: `self.vel = gaussian_filter(self.vel, sigma)`. -/
def CrustModel.smooth (w : List ℚ) (r : Nat) (s : CrustState) : CrustState :=
  { s with vel := gaussian_filter w r s.vel }

/-- The nested length profile of a 3-D array: its shape, including the
length of every row. -/
def shape3 {α : Type} (g : List (List (List α))) : List (List Nat) :=
  g.map (fun p => p.map List.length)

/-! ## Concrete fixtures used by the witnesses -/

/-- A tiny concrete source model: one latitude, two longitudes, every
cell holding the parallel profiles `depth = [1, 2]`, `vp = [4, 6]`. -/
def smW : SourceModel := ⟨[10], [20, 30], fun _ _ => ⟨[1, 2], [4, 6]⟩⟩

/-- A source model matching the boundary scenario of the spec: a single
cell at `(lat, lon) = (40, 117)` with three samples. -/
def smB : SourceModel := ⟨[40], [117], fun _ _ => ⟨[0, 10, 20], [5, 6, 7]⟩⟩

/-- Four non-coplanar sample points (a tetrahedron), all with velocity 5. -/
def ptsW : List (ℚ × ℚ × ℚ × ℚ) :=
  [(0, 0, 0, 5), (1, 0, 0, 5), (0, 1, 0, 5), (0, 0, 1, 5)]

/-- The output model produced by `CrustModel.griddata` on the 1 x 1 x 1
grid `[[[some 2]]]` with bounds `(0, 1)` in every direction. -/
def outW : OutModel :=
  ⟨linspace 0 1 1, linspace 0 1 1, linspace 0 1 1,
   zeros3 1 1 1, zeros3 1 1 1, zeros3 1 1 1, [[[some 2]]]⟩

/-! ## Column-level lemmas about the hole filler -/

/-- A `getD` read inside the bounds is the corresponding element. -/
lemma getD_lt {α : Type} (l : List α) (d : α) {k : Nat} (h : k < l.length) :
    l.getD k d = l[k] := by
  rw [List.getD_eq_getElem?_getD, List.getElem?_eq_getElem h]; rfl

lemma mem_definedIdx (c : List (Option ℚ)) (k : Nat) :
    k ∈ definedIdx c ↔ k < c.length ∧ (c.getD k none).isSome = true := by
  simp [definedIdx, List.mem_filter, List.mem_range]

lemma definedIdx_pairwise (c : List (Option ℚ)) : (definedIdx c).Pairwise (· < ·) :=
  List.Pairwise.sublist (List.filter_sublist _) (List.pairwise_lt_range _)

lemma pairwise_head_le (f : Nat) (rest : List Nat) (hp : (f :: rest).Pairwise (· < ·)) :
    ∀ k ∈ f :: rest, f ≤ k := by
  intro k hk
  rcases List.mem_cons.mp hk with h | h
  · exact h ▸ le_rfl
  · exact le_of_lt ((List.pairwise_cons.mp hp).1 k h)

lemma pairwise_le_getLast :
    ∀ (l : List Nat) (hne : l ≠ []), l.Pairwise (· < ·) →
      ∀ x ∈ l, x ≤ l.getLast hne := by
  intro l
  induction l with
  | nil => intro hne; exact absurd rfl hne
  | cons a rest ih =>
    intro hne hp x hx
    cases rest with
    | nil =>
      rcases List.mem_cons.mp hx with h | h
      · simp [h, List.getLast]
      · exact absurd h (List.not_mem_nil x)
    | cons b t =>
      rw [List.getLast_cons (List.cons_ne_nil b t)]
      rcases List.mem_cons.mp hx with h | h
      · exact h ▸ le_of_lt ((List.pairwise_cons.mp hp).1 _ (List.getLast_mem _))
      · exact ih (List.cons_ne_nil b t) (List.pairwise_cons.mp hp).2 x h

lemma fillAt_length (c : List (Option ℚ)) (f l : Nat) :
    (fillAt c f l).length = c.length := by
  simp [fillAt]

lemma fillAt_getD (c : List (Option ℚ)) (f l k : Nat) (hk : k < c.length) :
    (fillAt c f l).getD k none =
      if k < f then c.getD f none
      else if l < k then c.getD l none
      else c.getD k none := by
  unfold fillAt
  rw [List.getD_eq_getElem?_getD, List.getElem?_map, List.getElem?_range hk]
  rfl

lemma fillColumn_eq_ok (c : List (Option ℚ)) (f : Nat) (rest : List Nat)
    (h : definedIdx c = f :: rest) :
    fillColumn c = .ok (fillAt c f ((f :: rest).getLast (List.cons_ne_nil f rest))) := by
  unfold fillColumn
  rw [h]

lemma fillColumn_ok_inv (c c' : List (Option ℚ)) (h : fillColumn c = .ok c') :
    ∃ f rest, definedIdx c = f :: rest ∧
      c' = fillAt c f ((f :: rest).getLast (List.cons_ne_nil f rest)) := by
  unfold fillColumn at h
  cases hd : definedIdx c with
  | nil => rw [hd] at h; exact absurd h (by simp)
  | cons f rest =>
    rw [hd] at h
    exact ⟨f, rest, rfl, (Except.ok.inj h).symm⟩

/-- Everything a successful `fillColumn` guarantees: `first` and `last` are
the head and the last element of the defined-index list, entries strictly
before `first` take the value at `first`, entries strictly after `last`
take the value at `last`, and entries in between are untouched. -/
lemma fillColumn_ok_spec (c c' : List (Option ℚ)) (h : fillColumn c = .ok c') :
    ∃ f l,
      (definedIdx c).head? = some f ∧
      (definedIdx c).getLast? = some l ∧
      f ≤ l ∧ l < c.length ∧
      (c.getD f none).isSome = true ∧
      (c.getD l none).isSome = true ∧
      (∀ k ∈ definedIdx c, f ≤ k ∧ k ≤ l) ∧
      c'.length = c.length ∧
      (∀ k, k < f → c'.getD k none = c.getD f none) ∧
      (∀ k, l < k → k < c.length → c'.getD k none = c.getD l none) ∧
      (∀ k, f ≤ k → k ≤ l → c'.getD k none = c.getD k none) := by
  obtain ⟨f, rest, hd, hc'⟩ := fillColumn_ok_inv c c' h
  set l := (f :: rest).getLast (List.cons_ne_nil f rest) with hl
  have hpair : (f :: rest).Pairwise (· < ·) := hd ▸ definedIdx_pairwise c
  have hbounds : ∀ k ∈ definedIdx c, f ≤ k ∧ k ≤ l := by
    intro k hk
    rw [hd] at hk
    exact ⟨pairwise_head_le f rest hpair k hk,
           pairwise_le_getLast _ (List.cons_ne_nil f rest) hpair k hk⟩
  have hfmem : f ∈ definedIdx c := by rw [hd]; exact List.mem_cons_self f rest
  have hlmem : l ∈ definedIdx c := by rw [hd]; exact List.getLast_mem _
  have hfdef := (mem_definedIdx c f).mp hfmem
  have hldef := (mem_definedIdx c l).mp hlmem
  have hfl : f ≤ l := (hbounds f hfmem).2
  refine ⟨f, l, by rw [hd]; rfl, by rw [hd]; exact List.getLast?_eq_getLast _ _,
    hfl, hldef.1, hfdef.2, hldef.2, hbounds, ?_, ?_, ?_, ?_⟩
  · rw [hc', fillAt_length]
  · intro k hk
    rw [hc', fillAt_getD c f l k (lt_trans hk hfdef.1), if_pos hk]
  · intro k hk hk2
    rw [hc', fillAt_getD c f l k hk2,
        if_neg (by omega : ¬k < f), if_pos hk]
  · intro k hk1 hk2
    rw [hc', fillAt_getD c f l k (lt_of_le_of_lt hk2 hldef.1),
        if_neg (by omega : ¬k < f), if_neg (by omega : ¬l < k)]

/-- Two lists of equal length agreeing on every in-bounds `getD` read are
equal. -/
lemma list_ext_getD {α : Type} (d : α) (l1 l2 : List α) (hlen : l1.length = l2.length)
    (h : ∀ k, k < l1.length → l1.getD k d = l2.getD k d) : l1 = l2 := by
  apply List.ext_get hlen
  intro n h1 h2
  have hn := h n h1
  rw [getD_lt l1 d h1, getD_lt l2 d h2] at hn
  simpa using hn

/-- Filling a column that has already been filled changes nothing: after
one pass the first and the last entry of the column are defined, so the
second pass finds `first = 0` and `last = length - 1` and both overwrites
are empty. -/
lemma fillColumn_idem (c c' : List (Option ℚ)) (h : fillColumn c = .ok c') :
    fillColumn c' = .ok c' := by
  obtain ⟨f, l, hh, hlast, hfl, hln, hfdef, hldef, hbounds, hlen, hbefore, hafter, hmid⟩ :=
    fillColumn_ok_spec c c' h
  have hn : 0 < c.length := lt_of_le_of_lt (Nat.zero_le l) hln
  have hzero : (c'.getD 0 none).isSome = true := by
    rcases Nat.eq_zero_or_pos f with hf0 | hfpos
    · subst hf0
      rw [hmid 0 le_rfl (Nat.zero_le l)]
      exact hfdef
    · rw [hbefore 0 hfpos]; exact hfdef
  have hlastdef : (c'.getD (c.length - 1) none).isSome = true := by
    rcases Nat.lt_or_ge l (c.length - 1) with hl1 | hl2
    · rw [hafter (c.length - 1) hl1 (by omega)]; exact hldef
    · have : c.length - 1 = l := by omega
      rw [this, hmid l hfl le_rfl]; exact hldef
  have hzmem : 0 ∈ definedIdx c' := by
    rw [mem_definedIdx]; exact ⟨by omega, hzero⟩
  have hlmem : c.length - 1 ∈ definedIdx c' := by
    rw [mem_definedIdx]; exact ⟨by omega, hlastdef⟩
  cases hd2 : definedIdx c' with
  | nil => rw [hd2] at hzmem; exact absurd hzmem (List.not_mem_nil 0)
  | cons f2 rest2 =>
    have hpair2 : (f2 :: rest2).Pairwise (· < ·) := hd2 ▸ definedIdx_pairwise c'
    have hf2 : f2 = 0 := by
      have := pairwise_head_le f2 rest2 hpair2 0 (hd2 ▸ hzmem)
      omega
    set l2 := (f2 :: rest2).getLast (List.cons_ne_nil f2 rest2) with hl2def
    have hl2mem : l2 ∈ definedIdx c' := by rw [hd2]; exact List.getLast_mem _
    have hl2lt : l2 < c.length := by
      have := ((mem_definedIdx c' l2).mp hl2mem).1
      omega
    have hl2eq : l2 = c.length - 1 := by
      have hge := pairwise_le_getLast _ (List.cons_ne_nil f2 rest2) hpair2
        (c.length - 1) (hd2 ▸ hlmem)
      omega
    rw [fillColumn_eq_ok c' f2 rest2 hd2]
    congr 1
    apply list_ext_getD none _ _ (by rw [fillAt_length])
    intro k hk
    have hk' : k < c'.length := by rw [fillAt_length] at hk; exact hk
    have hkc : k < c.length := by omega
    rw [fillAt_getD c' f2 (l2) k hk', if_neg (by omega : ¬k < f2),
        if_neg (by omega : ¬l2 < k)]

/-! ## Row- and grid-level lemmas -/

lemma fillRow_ok_pointwise (row row' : List (List (Option ℚ)))
    (h : fillRow row = .ok row') :
    row'.length = row.length ∧
      ∀ j, j < row.length → fillColumn (row.getD j []) = .ok (row'.getD j []) := by
  induction row generalizing row' with
  | nil =>
    cases (Except.ok.inj h)
    exact ⟨rfl, fun j hj => absurd hj (Nat.not_lt_zero j)⟩
  | cons c rest ih =>
    unfold fillRow at h
    cases hc : fillColumn c with
    | error e => rw [hc] at h; exact absurd h (by simp)
    | ok c1 =>
      rw [hc] at h
      cases hr : fillRow rest with
      | error e => rw [hr] at h; exact absurd h (by simp)
      | ok rest1 =>
        rw [hr] at h
        cases (Except.ok.inj h)
        obtain ⟨hlen, hpt⟩ := ih rest1 hr
        refine ⟨by simp [hlen], ?_⟩
        intro j hj
        cases j with
        | zero => simpa using hc
        | succ j' =>
          simp only [List.getD_cons_succ]
          exact hpt j' (by simpa using hj)

lemma fillRow_total (row : List (List (Option ℚ)))
    (h : ∀ c ∈ row, definedIdx c ≠ []) :
    ∃ row', fillRow row = .ok row' := by
  induction row with
  | nil => exact ⟨[], rfl⟩
  | cons c rest ih =>
    obtain ⟨rest', hr⟩ := ih (fun c0 hc0 => h c0 (List.mem_cons_of_mem _ hc0))
    have hc := h c (List.mem_cons_self c rest)
    cases hd : definedIdx c with
    | nil => exact absurd hd hc
    | cons f r2 =>
      refine ⟨fillAt c f ((f :: r2).getLast (List.cons_ne_nil f r2)) :: rest', ?_⟩
      unfold fillRow
      rw [fillColumn_eq_ok c f r2 hd, hr]

lemma fillRow_idem (row row' : List (List (Option ℚ)))
    (h : fillRow row = .ok row') : fillRow row' = .ok row' := by
  induction row generalizing row' with
  | nil => cases (Except.ok.inj h); rfl
  | cons c rest ih =>
    unfold fillRow at h
    cases hc : fillColumn c with
    | error e => rw [hc] at h; exact absurd h (by simp)
    | ok c1 =>
      rw [hc] at h
      cases hr : fillRow rest with
      | error e => rw [hr] at h; exact absurd h (by simp)
      | ok rest1 =>
        rw [hr] at h
        cases (Except.ok.inj h)
        unfold fillRow
        rw [fillColumn_idem c c1 hc, ih rest1 hr]

lemma holeFill_ok_pointwise (g g' : List (List (List (Option ℚ))))
    (h : holeFill g = .ok g') :
    g'.length = g.length ∧
      ∀ i, i < g.length → fillRow (g.getD i []) = .ok (g'.getD i []) := by
  induction g generalizing g' with
  | nil =>
    cases (Except.ok.inj h)
    exact ⟨rfl, fun i hi => absurd hi (Nat.not_lt_zero i)⟩
  | cons row rest ih =>
    unfold holeFill at h
    cases hrow : fillRow row with
    | error e => rw [hrow] at h; exact absurd h (by simp)
    | ok row1 =>
      rw [hrow] at h
      cases hr : holeFill rest with
      | error e => rw [hr] at h; exact absurd h (by simp)
      | ok rest1 =>
        rw [hr] at h
        cases (Except.ok.inj h)
        obtain ⟨hlen, hpt⟩ := ih rest1 hr
        refine ⟨by simp [hlen], ?_⟩
        intro i hi
        cases i with
        | zero => simpa using hrow
        | succ i' =>
          simp only [List.getD_cons_succ]
          exact hpt i' (by simpa using hi)

lemma holeFill_total (g : List (List (List (Option ℚ))))
    (h : ∀ row ∈ g, ∀ c ∈ row, definedIdx c ≠ []) :
    ∃ g', holeFill g = .ok g' := by
  induction g with
  | nil => exact ⟨[], rfl⟩
  | cons row rest ih =>
    obtain ⟨rest', hr⟩ := ih (fun r hr0 => h r (List.mem_cons_of_mem _ hr0))
    obtain ⟨row', hrow⟩ := fillRow_total row (h row (List.mem_cons_self row rest))
    refine ⟨row' :: rest', ?_⟩
    unfold holeFill
    rw [hrow, hr]

lemma holeFill_idem_aux (g g' : List (List (List (Option ℚ))))
    (h : holeFill g = .ok g') : holeFill g' = .ok g' := by
  induction g generalizing g' with
  | nil => cases (Except.ok.inj h); rfl
  | cons row rest ih =>
    unfold holeFill at h
    cases hrow : fillRow row with
    | error e => rw [hrow] at h; exact absurd h (by simp)
    | ok row1 =>
      rw [hrow] at h
      cases hr : holeFill rest with
      | error e => rw [hr] at h; exact absurd h (by simp)
      | ok rest1 =>
        rw [hr] at h
        cases (Except.ok.inj h)
        unfold holeFill
        rw [fillRow_idem row row1 hrow, ih rest1 hr]

lemma fillColumn_ok_length (c c' : List (Option ℚ)) (h : fillColumn c = .ok c') :
    c'.length = c.length := by
  obtain ⟨f, rest, _, hc'⟩ := fillColumn_ok_inv c c' h
  rw [hc', fillAt_length]

/-- Hole filling preserves the (column-major) shape of the grid. -/
lemma holeFill_shape (g g' : List (List (List (Option ℚ)))) (n1 n2 n3 : Nat)
    (h : holeFill g = .ok g') (hs : VelHasShape g n1 n2 n3) :
    VelHasShape g' n1 n2 n3 := by
  obtain ⟨hglen, hgpt⟩ := holeFill_ok_pointwise g g' h
  refine ⟨by rw [hglen]; exact hs.1, ?_⟩
  intro p' hp'
  obtain ⟨i, hi, hpi⟩ := List.mem_iff_getElem.mp hp'
  have hig : i < g.length := by omega
  have hrow := hgpt i hig
  rw [getD_lt g' [] hi, hpi] at hrow
  have hrowmem : g.getD i [] ∈ g := by
    rw [getD_lt g [] hig]; exact List.getElem_mem hig
  obtain ⟨hrlen, hrpt⟩ := fillRow_ok_pointwise _ _ hrow
  have hsrow := hs.2 _ hrowmem
  refine ⟨by rw [hrlen]; exact hsrow.1, ?_⟩
  intro c' hc'
  obtain ⟨j, hj, hcj⟩ := List.mem_iff_getElem.mp hc'
  have hjr : j < (g.getD i []).length := by omega
  have hcol := hrpt j hjr
  rw [getD_lt p' [] hj, hcj] at hcol
  have hcolmem : (g.getD i []).getD j [] ∈ g.getD i [] := by
    rw [getD_lt _ [] hjr]; exact List.getElem_mem hjr
  rw [fillColumn_ok_length _ _ hcol]
  exact hsrow.2 _ hcolmem

/-- The `np.zeros` placeholder has the requested shape and is all zero. -/
lemma zeros3_spec (n1 n2 n3 : Nat) :
    IsCube (zeros3 n1 n2 n3) n1 n2 n3 ∧
      ∀ p ∈ zeros3 n1 n2 n3, ∀ r ∈ p, ∀ x ∈ r, x = 0 := by
  constructor
  · refine ⟨List.length_replicate n1 _, ?_⟩
    intro p hp
    rw [List.eq_of_mem_replicate hp]
    refine ⟨List.length_replicate n2 _, ?_⟩
    intro r hr
    rw [List.eq_of_mem_replicate hr]
    exact List.length_replicate n3 _
  · intro p hp r hr x hx
    rw [List.eq_of_mem_replicate hp] at hr
    rw [List.eq_of_mem_replicate hr] at hx
    exact List.eq_of_mem_replicate hx

/-! ## Convexity: a depth column meets the interpolation hull in a
contiguous index range -/

/-- A straight line in depth through a convex set: if the endpoints of a
depth interval (at fixed latitude and longitude) lie in a convex set,
so does every depth in between. -/
lemma convex_depth_segment (S : Set (ℚ × ℚ × ℚ)) (hS : Convex ℚ S)
    (t p x1 x2 x : ℚ) (h1 : (x1, t, p) ∈ S) (h2 : (x2, t, p) ∈ S)
    (hle1 : x1 ≤ x) (hle2 : x ≤ x2) : (x, t, p) ∈ S := by
  rcases eq_or_lt_of_le (le_trans hle1 hle2) with heq | hlt
  · have hx1 : x = x1 := le_antisymm (heq ▸ hle2) hle1
    exact hx1 ▸ h1
  · set θ : ℚ := (x - x1) / (x2 - x1) with hθ
    have hden : (0:ℚ) < x2 - x1 := by linarith
    have hθ0 : 0 ≤ θ := div_nonneg (by linarith) (le_of_lt hden)
    have hθ1 : θ ≤ 1 := by
      rw [hθ, div_le_one hden]; linarith
    have hmem := hS h1 h2 (by linarith : (0:ℚ) ≤ 1 - θ) hθ0 (by ring)
    have hcomb : (1 - θ) • ((x1, t, p) : ℚ × ℚ × ℚ) + θ • ((x2, t, p) : ℚ × ℚ × ℚ)
        = ((x, t, p) : ℚ × ℚ × ℚ) := by
      have hx : (1 - θ) * x1 + θ * x2 = x := by
        rw [hθ]; field_simp; ring
      simp only [Prod.smul_mk, smul_eq_mul, Prod.mk_add_mk]
      rw [hx]
      have ht : (1 - θ) * t + θ * t = t := by ring
      have hp2 : (1 - θ) * p + θ * p = p := by ring
      rw [ht, hp2]
    rw [hcomb] at hmem
    exact hmem

/-- Reading a sorted axis at increasing indices gives non-decreasing values. -/
lemma sorted_getD_mono (dd : List ℚ) (h : dd.Sorted (· ≤ ·)) {k1 k2 : Nat}
    (hk : k1 ≤ k2) (h2 : k2 < dd.length) : dd.getD k1 0 ≤ dd.getD k2 0 := by
  rcases Nat.lt_or_ge k1 k2 with hlt | hge
  · have h1 : k1 < dd.length := lt_trans hlt h2
    rw [getD_lt dd 0 h1, getD_lt dd 0 h2]
    have := List.pairwise_iff_get.mp h ⟨k1, h1⟩ ⟨k2, h2⟩ hlt
    simpa using this
  · have : k1 = k2 := le_antisymm hk hge
    rw [this]

/-! ## Claim theorems -/

/-- C1: for every velocity grid produced by the interpolation stage (its
defined entries are exactly the grid points inside a convex region, the
convex hull of the point cloud, per the contract of linear scattered
interpolation) in which every depth column has at least one defined
entry, the hole-filling pass succeeds and leaves no undefined entry:
entries shallower than the first defined index take the value at that
first index, entries deeper than the last defined index take the value
at that last index, and entries between the two (inclusive) are left
unchanged. -/
theorem holeFill_fills_interpolated_grid
    (g : List (List (List (Option ℚ)))) (dd tt pp : List ℚ) (S : Set (ℚ × ℚ × ℚ))
    (hshape : VelHasShape g dd.length tt.length pp.length)
    (hdd : dd.Sorted (· ≤ ·))
    (hconv : Convex ℚ S)
    (hhull : ∀ i, i < tt.length → ∀ j, j < pp.length → ∀ k, k < dd.length →
        ((((g.getD i []).getD j []).getD k none).isSome = true ↔
          (dd.getD k 0, tt.getD i 0, pp.getD j 0) ∈ S))
    (hne : ∀ i, i < tt.length → ∀ j, j < pp.length →
        ∃ k, k < dd.length ∧ (((g.getD i []).getD j []).getD k none).isSome = true) :
    ∃ g', holeFill g = .ok g' ∧
      ∀ i, i < tt.length → ∀ j, j < pp.length →
        ∃ f l,
          (definedIdx ((g.getD i []).getD j [])).head? = some f ∧
          (definedIdx ((g.getD i []).getD j [])).getLast? = some l ∧
          (∀ k, k < dd.length → (((g'.getD i []).getD j []).getD k none).isSome = true) ∧
          (∀ k, k < f →
            ((g'.getD i []).getD j []).getD k none = ((g.getD i []).getD j []).getD f none) ∧
          (∀ k, l < k → k < dd.length →
            ((g'.getD i []).getD j []).getD k none = ((g.getD i []).getD j []).getD l none) ∧
          (∀ k, f ≤ k → k ≤ l →
            ((g'.getD i []).getD j []).getD k none = ((g.getD i []).getD j []).getD k none) := by
  have hglen : g.length = tt.length := hshape.1
  have hrowlen : ∀ i, i < tt.length → (g.getD i []).length = pp.length := by
    intro i hi
    have hig : i < g.length := by omega
    have hrowmem : g.getD i [] ∈ g := by
      rw [getD_lt g [] hig]; exact List.getElem_mem hig
    exact (hshape.2 _ hrowmem).1
  have hcollen : ∀ i, i < tt.length → ∀ j, j < pp.length →
      ((g.getD i []).getD j []).length = dd.length := by
    intro i hi j hj
    have hig : i < g.length := by omega
    have hrowmem : g.getD i [] ∈ g := by
      rw [getD_lt g [] hig]; exact List.getElem_mem hig
    have hjr : j < (g.getD i []).length := by
      rw [hrowlen i hi]; exact hj
    have hcolmem : (g.getD i []).getD j [] ∈ g.getD i [] := by
      rw [getD_lt _ [] hjr]; exact List.getElem_mem hjr
    exact (hshape.2 _ hrowmem).2 _ hcolmem
  have htot : ∀ row ∈ g, ∀ c ∈ row, definedIdx c ≠ [] := by
    intro row hrow c hc
    obtain ⟨i, hig, hrowi⟩ := List.mem_iff_getElem.mp hrow
    have hi : i < tt.length := by omega
    have hrowD : g.getD i [] = row := by rw [getD_lt g [] hig, hrowi]
    obtain ⟨j, hjr, hcj⟩ := List.mem_iff_getElem.mp hc
    have hj : j < pp.length := by
      have := hrowlen i hi; rw [hrowD] at this; omega
    have hcolD : (g.getD i []).getD j [] = c := by
      rw [hrowD, getD_lt row [] hjr, hcj]
    obtain ⟨k, hk, hkdef⟩ := hne i hi j hj
    rw [hcolD] at hkdef
    have hkc : k < c.length := by
      have := hcollen i hi j hj; rw [hcolD] at this; omega
    have : k ∈ definedIdx c := (mem_definedIdx c k).mpr ⟨hkc, hkdef⟩
    intro hnil
    rw [hnil] at this
    exact List.not_mem_nil k this
  obtain ⟨g', hok⟩ := holeFill_total g htot
  refine ⟨g', hok, ?_⟩
  intro i hi j hj
  obtain ⟨hg'len, hgpt⟩ := holeFill_ok_pointwise g g' hok
  have hig : i < g.length := by omega
  have hrow := hgpt i hig
  have hjr : j < (g.getD i []).length := by rw [hrowlen i hi]; exact hj
  obtain ⟨hrlen, hrpt⟩ := fillRow_ok_pointwise _ _ hrow
  have hcol := hrpt j hjr
  obtain ⟨f, l, hh, hlast, hfl, hln, hfdef, hldef, hbounds, hclen, hbefore, hafter, hmid⟩ :=
    fillColumn_ok_spec _ _ hcol
  have hcdd : ((g.getD i []).getD j []).length = dd.length := hcollen i hi j hj
  have hfltdd : f < dd.length := by omega
  have hlltdd : l < dd.length := by omega
  -- contiguity between the first and the last defined index, via convexity
  have hcontig : ∀ k, f ≤ k → k ≤ l →
      (((g.getD i []).getD j []).getD k none).isSome = true := by
    intro k hkf hkl
    have hkdd : k < dd.length := by omega
    have hf : (dd.getD f 0, tt.getD i 0, pp.getD j 0) ∈ S :=
      (hhull i hi j hj f hfltdd).mp hfdef
    have hl : (dd.getD l 0, tt.getD i 0, pp.getD j 0) ∈ S :=
      (hhull i hi j hj l hlltdd).mp hldef
    have hmemk : (dd.getD k 0, tt.getD i 0, pp.getD j 0) ∈ S :=
      convex_depth_segment S hconv _ _ _ _ _ hf hl
        (sorted_getD_mono dd hdd hkf hkdd)
        (sorted_getD_mono dd hdd hkl hlltdd)
    exact (hhull i hi j hj k hkdd).mpr hmemk
  refine ⟨f, l, hh, hlast, ?_, hbefore, ?_, hmid⟩
  · intro k hk
    rcases Nat.lt_or_ge k f with hkf | hkf
    · rw [hbefore k hkf]; exact hfdef
    · rcases le_or_lt k l with hkl | hkl
      · rw [hmid k hkf hkl]; exact hcontig k hkf hkl
      · rw [hafter k hkl (by omega)]; exact hldef
  · intro k hk hk2
    exact hafter k hk (by omega)

/-- Witness for C1: a concrete 1 x 1 x 2 grid, fully inside the (convex)
region `Set.univ`, is filled successfully with all the stated properties. -/
theorem holeFill_fills_witness :
    ∃ g', holeFill [[[some (1:ℚ), some 2]]] = .ok g' ∧
      ∀ i, i < ([(5:ℚ)] : List ℚ).length → ∀ j, j < ([(7:ℚ)] : List ℚ).length →
        ∃ f l,
          (definedIdx ((([[[some (1:ℚ), some 2]]] : List (List (List (Option ℚ)))).getD i []).getD j [])).head? = some f ∧
          (definedIdx ((([[[some (1:ℚ), some 2]]] : List (List (List (Option ℚ)))).getD i []).getD j [])).getLast? = some l ∧
          (∀ k, k < ([(0:ℚ), 1] : List ℚ).length →
            (((g'.getD i []).getD j []).getD k none).isSome = true) ∧
          (∀ k, k < f →
            ((g'.getD i []).getD j []).getD k none =
              ((([[[some (1:ℚ), some 2]]] : List (List (List (Option ℚ)))).getD i []).getD j []).getD f none) ∧
          (∀ k, l < k → k < ([(0:ℚ), 1] : List ℚ).length →
            ((g'.getD i []).getD j []).getD k none =
              ((([[[some (1:ℚ), some 2]]] : List (List (List (Option ℚ)))).getD i []).getD j []).getD l none) ∧
          (∀ k, f ≤ k → k ≤ l →
            ((g'.getD i []).getD j []).getD k none =
              ((([[[some (1:ℚ), some 2]]] : List (List (List (Option ℚ)))).getD i []).getD j []).getD k none) :=
  holeFill_fills_interpolated_grid [[[some 1, some 2]]] [0, 1] [5] [7] Set.univ
    (by simp [VelHasShape])
    (by decide)
    (convex_univ)
    (by
      intro i hi j hj k hk
      simp only [List.length_cons, List.length_nil] at hi hj hk
      have hi0 : i = 0 := by omega
      have hj0 : j = 0 := by omega
      subst hi0; subst hj0
      simp only [Set.mem_univ, iff_true]
      interval_cases k <;> rfl)
    (by
      intro i hi j hj
      simp only [List.length_cons, List.length_nil] at hi hj
      have hi0 : i = 0 := by omega
      have hj0 : j = 0 := by omega
      subst hi0; subst hj0
      exact ⟨0, by simp, rfl⟩)

/-- C2: a depth column with zero defined samples does not produce an
explicit empty-column error; the code lets the failure surface as the
`IndexError` of `np.where(~np.isnan(vp_dep))[0][0]` indexing an empty
index array.  Evaluated on a grid whose single column is all-undefined. -/
theorem holeFill_empty_column_index_fault :
    holeFill [[[(none : Option ℚ)]]] = .error CrustErr.indexErr := by
  rfl

/-- C6: hole filling is idempotent: a second pass over an already filled
grid returns it unchanged. -/
theorem holeFill_idempotent (g g' : List (List (List (Option ℚ))))
    (h : holeFill g = .ok g') : holeFill g' = .ok g' :=
  holeFill_idem_aux g g' h

/-- Witness for C6: a concrete grid on which the pass succeeds, and the
second pass fixes its output. -/
theorem holeFill_idempotent_witness :
    holeFill [[[some (3:ℚ), none]]] = .ok [[[some (3:ℚ), some 3]]] ∧
      holeFill [[[some (3:ℚ), some 3]]] = .ok [[[some (3:ℚ), some 3]]] :=
  ⟨by rfl, holeFill_idempotent [[[some 3, none]]] [[[some 3, some 3]]] (by rfl)⟩

/-- C3: flattening emits one 4-tuple per profile sample: the point count
is the sum of per-cell profile lengths, every `(i, j, k)` contributes the
tuple `(depth[i][j][k], lat[i], lon[j], vp[i][j][k])`, and every emitted
tuple arises this way (so a zero-length profile contributes nothing).
The parallel-profile hypothesis is the data-model invariant under which
the `all_vp[k]` read of the source is in range. -/
theorem model2points_flattening (sm : SourceModel)
    (hpar : ∀ i, i < sm.lat.length → ∀ j, j < sm.lon.length →
      (sm.data i j).vp.length = (sm.data i j).depth.length) :
    (model2points sm).length =
      ((List.range sm.lat.length).map (fun i =>
        ((List.range sm.lon.length).map (fun j =>
          (sm.data i j).depth.length)).sum)).sum ∧
    (∀ i, i < sm.lat.length → ∀ j, j < sm.lon.length →
      ∀ k, k < (sm.data i j).depth.length →
        ((sm.data i j).depth.getD k 0, sm.lat.getD i 0, sm.lon.getD j 0,
         (sm.data i j).vp.getD k 0) ∈ model2points sm) ∧
    (∀ q ∈ model2points sm, ∃ i, i < sm.lat.length ∧ ∃ j, j < sm.lon.length ∧
      ∃ k, k < (sm.data i j).depth.length ∧
        q = ((sm.data i j).depth.getD k 0, sm.lat.getD i 0, sm.lon.getD j 0,
             (sm.data i j).vp.getD k 0)) := by
  refine ⟨?_, ?_, ?_⟩
  · simp [model2points, List.length_flatMap, List.map_map, Function.comp_def]
  · intro i hi j hj k hk
    rw [model2points]
    refine List.mem_flatMap.mpr ⟨i, List.mem_range.mpr hi, ?_⟩
    refine List.mem_flatMap.mpr ⟨j, List.mem_range.mpr hj, ?_⟩
    exact List.mem_map.mpr ⟨k, List.mem_range.mpr hk, rfl⟩
  · intro q hq
    rw [model2points] at hq
    obtain ⟨i, hi, hq⟩ := List.mem_flatMap.mp hq
    obtain ⟨j, hj, hq⟩ := List.mem_flatMap.mp hq
    obtain ⟨k, hk, hq⟩ := List.mem_map.mp hq
    exact ⟨i, List.mem_range.mp hi, j, List.mem_range.mp hj, k,
           List.mem_range.mp hk, hq.symm⟩

/-- Witness for C3 on the concrete model `smW` (1 latitude, 2 longitudes,
2 samples per cell): 4 points, containing the expected tuples. -/
theorem model2points_flattening_witness :
    (∀ i, i < smW.lat.length → ∀ j, j < smW.lon.length →
      (smW.data i j).vp.length = (smW.data i j).depth.length) ∧
    (model2points smW).length =
      ((List.range smW.lat.length).map (fun i =>
        ((List.range smW.lon.length).map (fun j =>
          (smW.data i j).depth.length)).sum)).sum ∧
    ((smW.data 0 1).depth.getD 1 0, smW.lat.getD 0 0, smW.lon.getD 1 0,
      (smW.data 0 1).vp.getD 1 0) ∈ model2points smW := by
  have hpar : ∀ i, i < smW.lat.length → ∀ j, j < smW.lon.length →
      (smW.data i j).vp.length = (smW.data i j).depth.length := by decide
  have h := model2points_flattening smW hpar
  exact ⟨hpar, h.1, h.2.1 0 (by decide) 1 (by decide) 1 (by decide)⟩

/-- C8: the flattening stage does not preallocate: starting from
`np.empty([0, 4])` it performs one further container allocation per
emitted row (`np.vstack`), so the boundary-scenario model with 3 samples
costs 4 allocations of the growing point array, not the single
allocation the specification prescribes. -/
theorem model2points_alloc_per_row :
    model2pointsAlloc smB =
      ([((0:ℚ), 40, 117, 5), (10, 40, 117, 6), (20, 40, 117, 7)], 4) ∧
    (model2pointsAlloc smB).2 ≠ 1 := by
  constructor
  · rfl
  · intro h
    rw [show (model2pointsAlloc smB).2 = 4 from rfl] at h
    exact absurd h (by decide)

/-- C5: on a point cloud with fewer than 4 non-coplanar points the
triangulation inside the interpolation stage fails, `griddata` surfaces
the interpolation error, and the hole-filling pass is never executed:
the result is the same error for every conceivable interpolated grid
`grid_vp`, defined or not. -/
theorem griddata_insufficient_data (grid_vp : List (List (List (Option ℚ))))
    (points : List (ℚ × ℚ × ℚ × ℚ)) (min_max_dep min_max_lat min_max_lon : ℚ × ℚ)
    (n_rtp : Nat × Nat × Nat)
    (h : degeneratePts (points.map (fun q => (q.1, q.2.1, q.2.2.1)))) :
    CrustModel.griddata grid_vp points min_max_dep min_max_lat min_max_lon n_rtp =
      .error CrustErr.insufficientData := by
  unfold CrustModel.griddata
  rw [if_pos h]

/-- Witness for C5: a single-point cloud (3 points fewer than required)
makes the pipeline abort with the interpolation error, even though the
supplied grid would hole-fill without error. -/
theorem griddata_insufficient_data_witness :
    degeneratePts (([((0:ℚ), 0, 0, 5)] : List (ℚ × ℚ × ℚ × ℚ)).map
      (fun q => (q.1, q.2.1, q.2.2.1))) ∧
    CrustModel.griddata [[[some 1]]] [((0:ℚ), 0, 0, 5)] (0, 1) (0, 1) (0, 1) (1, 1, 1) =
      .error CrustErr.insufficientData := by
  have hdeg : degeneratePts (([((0:ℚ), 0, 0, 5)] : List (ℚ × ℚ × ℚ × ℚ)).map
      (fun q => (q.1, q.2.1, q.2.2.1))) := by
    intro a ha b hb c hc d hd
    simp only [List.map_cons, List.map_nil, List.mem_singleton] at ha hb hc hd
    subst ha; subst hb; subst hc; subst hd
    norm_num [det3, sub3]
  exact ⟨hdeg, griddata_insufficient_data _ _ _ _ _ _ hdeg⟩

/-- C4: whenever the `griddata` pipeline succeeds, its output model holds
four 3-D arrays of the common numpy shape `n_rtp = (ndep, nlat, nlon)`:
the all-zero placeholders `eta`, `xi`, `zeta`, and the filled velocity
grid (stored column-major here, see `VelHasShape`).  The shape hypothesis
on `grid_vp` is the scipy contract: the interpolated array has the shape
of the `meshgrid` of the three axes, whose lengths `init_axis` sets to
`n_rtp`. -/
theorem griddata_output_shapes (grid_vp : List (List (List (Option ℚ))))
    (points : List (ℚ × ℚ × ℚ × ℚ)) (min_max_dep min_max_lat min_max_lon : ℚ × ℚ)
    (n_rtp : Nat × Nat × Nat) (m : OutModel)
    (hshape : VelHasShape grid_vp n_rtp.1 n_rtp.2.1 n_rtp.2.2)
    (hok : CrustModel.griddata grid_vp points min_max_dep min_max_lat min_max_lon n_rtp =
      .ok m) :
    IsCube m.eta n_rtp.1 n_rtp.2.1 n_rtp.2.2 ∧
    IsCube m.xi n_rtp.1 n_rtp.2.1 n_rtp.2.2 ∧
    IsCube m.zeta n_rtp.1 n_rtp.2.1 n_rtp.2.2 ∧
    (∀ p ∈ m.eta, ∀ r ∈ p, ∀ x ∈ r, x = 0) ∧
    (∀ p ∈ m.xi, ∀ r ∈ p, ∀ x ∈ r, x = 0) ∧
    (∀ p ∈ m.zeta, ∀ r ∈ p, ∀ x ∈ r, x = 0) ∧
    VelHasShape m.vel n_rtp.1 n_rtp.2.1 n_rtp.2.2 := by
  unfold CrustModel.griddata at hok
  by_cases hdeg : degeneratePts (points.map (fun q => (q.1, q.2.1, q.2.2.1)))
  · rw [if_pos hdeg] at hok
    exact absurd hok (by simp)
  · rw [if_neg hdeg] at hok
    cases hf : holeFill grid_vp with
    | error e => rw [hf] at hok; exact absurd hok (by simp)
    | ok vel =>
      rw [hf] at hok
      cases (Except.ok.inj hok)
      exact ⟨(zeros3_spec _ _ _).1, (zeros3_spec _ _ _).1, (zeros3_spec _ _ _).1,
        (zeros3_spec _ _ _).2, (zeros3_spec _ _ _).2, (zeros3_spec _ _ _).2,
        holeFill_shape _ _ _ _ _ hf hshape⟩

/-- Witness for C4: the pipeline run on the tetrahedron cloud `ptsW` and
the 1 x 1 x 1 grid `[[[some 2]]]` returns `outW`, whose four arrays all
have shape `(1, 1, 1)`. -/
theorem griddata_output_shapes_witness :
    VelHasShape [[[some 2]]] 1 1 1 ∧
    CrustModel.griddata [[[some 2]]] ptsW (0, 1) (0, 1) (0, 1) (1, 1, 1) = .ok outW ∧
    (IsCube outW.eta 1 1 1 ∧ IsCube outW.xi 1 1 1 ∧ IsCube outW.zeta 1 1 1 ∧
     (∀ p ∈ outW.eta, ∀ r ∈ p, ∀ x ∈ r, x = 0) ∧
     (∀ p ∈ outW.xi, ∀ r ∈ p, ∀ x ∈ r, x = 0) ∧
     (∀ p ∈ outW.zeta, ∀ r ∈ p, ∀ x ∈ r, x = 0) ∧
     VelHasShape outW.vel 1 1 1) := by
  have hsh : VelHasShape [[[some 2]]] 1 1 1 := by simp [VelHasShape]
  have hnd : ¬degeneratePts (ptsW.map (fun q => (q.1, q.2.1, q.2.2.1))) := by
    intro h
    have hm : ptsW.map (fun q => (q.1, q.2.1, q.2.2.1)) =
        [((0:ℚ), 0, 0), (1, 0, 0), (0, 1, 0), (0, 0, 1)] := rfl
    rw [hm] at h
    have h4 := h (0, 0, 0) (by simp) (1, 0, 0) (by simp) (0, 1, 0) (by simp)
      (0, 0, 1) (by simp)
    norm_num [det3, sub3] at h4
  have hok : CrustModel.griddata [[[some 2]]] ptsW (0, 1) (0, 1) (0, 1) (1, 1, 1) =
      .ok outW := by
    unfold CrustModel.griddata
    rw [if_neg hnd]
    rfl
  exact ⟨hsh, hok, griddata_output_shapes _ _ _ _ _ _ _ hsh hok⟩

/-- Mapping a function over the reads of a list at indices `0..length-1`
is mapping it over the list. -/
lemma map_getD_range {α β : Type} (l : List α) (d : α) (f : α → β) :
    (List.range l.length).map (fun i => f (l.getD i d)) = l.map f := by
  induction l with
  | nil => rfl
  | cons a t ih =>
    rw [List.length_cons, List.range_succ_eq_map]
    simp only [List.map_cons, List.map_map, Function.comp_def, List.getD_cons_zero,
      List.getD_cons_succ]
    rw [ih]

lemma corr1_length (w : List ℚ) (r : Nat) (xs : List ℚ) :
    (corr1 w r xs).length = xs.length := by
  unfold corr1
  rw [List.length_map, List.length_range]

lemma shape3_corrAxis2 (w : List ℚ) (r : Nat) (g : List (List (List ℚ))) :
    shape3 (corrAxis2 w r g) = shape3 g := by
  unfold shape3 corrAxis2
  rw [List.map_map]
  apply List.map_congr_left
  intro p _
  simp [List.map_map, Function.comp_def, corr1_length]

lemma shape3_corrAxis1 (w : List ℚ) (r : Nat) (g : List (List (List ℚ))) :
    shape3 (corrAxis1 w r g) = shape3 g := by
  unfold shape3 corrAxis1
  rw [List.map_map]
  apply List.map_congr_left
  intro p _
  simp only [Function.comp_def, List.map_map, List.length_map, List.length_range]
  exact map_getD_range p [] List.length

lemma shape3_corrAxis0 (w : List ℚ) (r : Nat) (g : List (List (List ℚ))) :
    shape3 (corrAxis0 w r g) = shape3 g := by
  unfold shape3 corrAxis0
  rw [List.map_map]
  have hstep : ∀ i ∈ List.range g.length,
      ((List.map List.length ∘ fun i =>
        (List.range (g.getD i []).length).map (fun j =>
          (List.range ((g.getD i []).getD j []).length).map (fun k =>
            ((List.range w.length).map (fun m =>
              w.getD m 0 *
                ((g.getD (reflIdx g.length ((i : Int) + m - r)) []).getD j []).getD k 0)).sum)))
        i) = (fun p => p.map List.length) (g.getD i []) := by
    intro i _
    simp only [Function.comp_def, List.map_map, List.length_map, List.length_range]
    exact map_getD_range (g.getD i []) [] List.length
  rw [List.map_congr_left hstep]
  exact map_getD_range g [] (fun p => p.map List.length)

/-- C7: smoothing never changes the grid shape: for every kernel (hence
for the Gaussian kernel of any valid spread parameter) and every
fully-defined velocity grid, the output has exactly the input shape,
row by row. -/
theorem smooth_preserves_shape (w : List ℚ) (r : Nat) (s : CrustState) :
    shape3 ((CrustModel.smooth w r s).vel) = shape3 s.vel := by
  show shape3 (gaussian_filter w r s.vel) = shape3 s.vel
  unfold gaussian_filter
  rw [shape3_corrAxis0, shape3_corrAxis1, shape3_corrAxis2]

/-- C9: `smooth` only reassigns `self.vel`; the placeholder arrays and the
three axes of the model state are untouched. -/
theorem smooth_frame (w : List ℚ) (r : Nat) (s : CrustState) :
    (CrustModel.smooth w r s).eta = s.eta ∧
    (CrustModel.smooth w r s).xi = s.xi ∧
    (CrustModel.smooth w r s).zeta = s.zeta ∧
    (CrustModel.smooth w r s).dd = s.dd ∧
    (CrustModel.smooth w r s).tt = s.tt ∧
    (CrustModel.smooth w r s).pp = s.pp :=
  ⟨rfl, rfl, rfl, rfl, rfl, rfl⟩

/-- C10: on a sorted array, `find_adjacent_point` brackets the query with
the searchsorted insertion index: the left neighbour is `None` exactly
when the index is 0 (the query sorts at or before every element) and is
`index - 1` otherwise; the right neighbour is `None` exactly when the
index is the array length (every element sorts strictly below the query)
and is `index` otherwise. -/
theorem find_adjacent_point_brackets (array : List ℚ) (point : ℚ)
    (hs : array.Sorted (· ≤ ·)) :
    (find_adjacent_point array point).1 =
      (if searchsorted array point = 0 then none
       else some (searchsorted array point - 1)) ∧
    (find_adjacent_point array point).2 =
      (if searchsorted array point = array.length then none
       else some (searchsorted array point)) ∧
    (searchsorted array point = 0 ↔ ∀ x ∈ array, point ≤ x) ∧
    (searchsorted array point = array.length ↔ ∀ x ∈ array, x < point) := by
  refine ⟨rfl, rfl, ?_, ?_⟩
  · rw [searchsorted, List.countP_eq_zero]
    constructor
    · intro h x hx
      have hnx := h x hx
      simp only [decide_eq_true_eq] at hnx
      exact le_of_not_lt hnx
    · intro h x hx
      simp only [decide_eq_true_eq]
      exact not_lt.mpr (h x hx)
  · rw [searchsorted, List.countP_eq_length]
    constructor
    · intro h x hx
      have := h x hx
      simpa using this
    · intro h x hx
      simpa using h x hx

/-- Witness for C10 on the sorted array `[1, 2]` with query `2`: the
insertion index is 1, bracketing the query between indices 0 and 1. -/
theorem find_adjacent_point_brackets_witness :
    ([(1:ℚ), 2] : List ℚ).Sorted (· ≤ ·) ∧
    ((find_adjacent_point [(1:ℚ), 2] 2).1 =
      (if searchsorted [(1:ℚ), 2] 2 = 0 then none
       else some (searchsorted [(1:ℚ), 2] 2 - 1)) ∧
     (find_adjacent_point [(1:ℚ), 2] 2).2 =
      (if searchsorted [(1:ℚ), 2] 2 = ([(1:ℚ), 2] : List ℚ).length then none
       else some (searchsorted [(1:ℚ), 2] 2)) ∧
     (searchsorted [(1:ℚ), 2] 2 = 0 ↔ ∀ x ∈ ([(1:ℚ), 2] : List ℚ), (2:ℚ) ≤ x) ∧
     (searchsorted [(1:ℚ), 2] 2 = ([(1:ℚ), 2] : List ℚ).length ↔
       ∀ x ∈ ([(1:ℚ), 2] : List ℚ), x < (2:ℚ))) :=
  ⟨by decide, find_adjacent_point_brackets [1, 2] 2 (by decide)⟩
